import Mathlib

/-!
# Verification of the termuwu rendering engine (`cmd/colorutil.go`)

Shallow embedding of the rendering core: the RGB → ANSI-256 quantizer, the
scaler, the sampler, the ditherer and the three per-mode rasterizers.

Conventions of the embedding:
* Go `uint8`/`uint32` values are `Nat`; conversions that can wrap
  (`uint8(x)` on unsigned integers) are `% 256`, written `u8`.
* Go `int` is `Int`; Go integer division truncates toward zero, which is
  `Int.tdiv`.
* Every `float64` expression in this file's source is a rational expression
  over integers followed (at most) by one truncating conversion to an
  integer type.  Such expressions are embedded exactly: the truncation of
  `p / q` (`p, q` integers, `q > 0`) is integer division, and strict
  comparisons of rationals with common positive denominators are the
  cross-multiplied integer comparisons.  Each definition's doc comment
  shows the float expression it embeds and the exact rewrite used.
-/

/-- Go `uint8(x)` conversion of an unsigned integer: wraps modulo 256. -/
def u8 (n : Nat) : Nat := n % 256

/-- `clamp8` makes sure a value is within the 0-255 range.
Source: `func clamp8(val uint32) uint8`; the final `uint8(val)` conversion
is exact because the branch guarantees `val ≤ 255`. -/
def clamp8 (val : Nat) : Nat :=
  if val > 255 then 255 else val

/-- `quantizeToSix` converts an 8-bit color value to one of the 6 levels in
the ANSI color cube, thresholds 48/95/142/189/236. -/
def quantizeToSix (val : Nat) : Nat :=
  if val < 48 then 0
  else if val < 95 then 1
  else if val < 142 then 2
  else if val < 189 then 3
  else if val < 236 then 4
  else 5

/-- `maxUint8`: maximum of three channel values. -/
def maxUint8 (a b c : Nat) : Nat :=
  if a ≥ b ∧ a ≥ c then a
  else if b ≥ c then b
  else c

/-- `minUint8`: minimum of three channel values. -/
def minUint8 (a b c : Nat) : Nat :=
  if a ≤ b ∧ a ≤ c then a
  else if b ≤ c then b
  else c

/-- `isGrayscale`: channel spread at most 10.  (`max - min` cannot
underflow, so `Nat` subtraction is the `uint8` subtraction.) -/
def isGrayscale (r g b : Nat) : Bool :=
  maxUint8 r g b - minUint8 r g b ≤ 10

/-- `isNearGrayscale`: channel spread at most 30. -/
def isNearGrayscale (r g b : Nat) : Bool :=
  maxUint8 r g b - minUint8 r g b ≤ 30

/-- The luminance computed in `mapToGrayscale`:
`gray := uint8(0.299*float64(r) + 0.587*float64(g) + 0.114*float64(b))`.
Exactly, the truncation of `(299*r + 587*g + 114*b) / 1000`, which for
8-bit inputs lies in `[0, 255]`, so the `uint8` conversion is the `Nat`
division itself. -/
def grayLuma (r g b : Nat) : Nat :=
  (299 * r + 587 * g + 114 * b) / 1000

/-- `mapToGrayscale` finds the best match in ANSI's 24-step grayscale ramp
(indices 232-255).  The last line embeds
`232 + int(float64(gray-8)*(23.0/240.0))`: the branch guarantees
`10 ≤ gray ≤ 245`, so `gray - 8` is the `uint8` subtraction and the
truncated product is `((gray - 8) * 23) / 240`. -/
def mapToGrayscale (r g b : Nat) : Nat :=
  let gray := grayLuma r g b
  if gray < 10 then 232
  else if gray > 245 then 255
  else 232 + ((gray - 8) * 23) / 240

/-- `ansiToRGB` gives an approximate RGB value for an ANSI 256 color index.
* Ramp indices 232-255: `grayVal := float64(index-232)*(240.0/23.0) + 8.0`,
  then clamped to `[0, 255]` and truncated to `uint8`.  For
  `index - 232 ∈ [0, 23]` the exact value lies in `[8, 248]`, so the two
  float clamps never fire and the truncation is
  `((index - 232) * 240) / 23 + 8` (the `+ 8` is an integer and commutes
  with truncation).
* Cube indices 16-231: base-6 digits through the level table
  `{0, 47, 95, 142, 189, 236}`.
* Reserved indices: black, white, or a mid-gray guess. -/
def ansiToRGB (index : Nat) : Nat × Nat × Nat :=
  if 232 ≤ index ∧ index ≤ 255 then
    let gray := ((index - 232) * 240) / 23 + 8
    (gray, gray, gray)
  else if 16 ≤ index ∧ index ≤ 231 then
    let i := index - 16
    let r := (i / 36) % 6
    let g := (i / 6) % 6
    let b := i % 6
    let valMap : List Nat := [0, 47, 95, 142, 189, 236]
    (valMap.getD r 0, valMap.getD g 0, valMap.getD b 0)
  else if index = 0 ∨ index = 16 then (0, 0, 0)
  else if index = 7 ∨ index = 231 then (255, 255, 255)
  else (128, 128, 128)

/-- `colorDistance`: weighted squared distance `2·dr² + 4·dg² + 3·db²`.
All intermediates are integer-valued and below 2^53, so the source's
`float64` arithmetic is exact and the value is this integer. -/
def colorDistance (r1 g1 b1 : Nat) (colorIndex : Nat) : Int :=
  let c2 := ansiToRGB colorIndex
  let dr : Int := (r1 : Int) - (c2.1 : Int)
  let dg : Int := (g1 : Int) - (c2.2.1 : Int)
  let db : Int := (b1 : Int) - (c2.2.2 : Int)
  2 * dr * dr + 4 * dg * dg + 3 * db * db

/-- `RGBToANSI256` figures out the best ANSI 256 color for a given RGB
value.  Inputs are the `uint32` arguments (16-bit channels at every call
site); `r >> 8` is `r / 256`.  The boost rebinds all three channels when
every channel is below 15, mirroring the in-place mutation. -/
def RGBToANSI256 (r g b : Nat) : Nat :=
  let r8 := clamp8 (r / 256)
  let g8 := clamp8 (g / 256)
  let b8 := clamp8 (b / 256)
  if r8 = 0 ∧ g8 = 0 ∧ b8 = 0 then 16
  else
    let boosted :=
      if r8 < 15 ∧ g8 < 15 ∧ b8 < 15 then
        (clamp8 (r8 + 10), clamp8 (g8 + 10), clamp8 (b8 + 10))
      else (r8, g8, b8)
    let r8 := boosted.1
    let g8 := boosted.2.1
    let b8 := boosted.2.2
    if isGrayscale r8 g8 b8 then mapToGrayscale r8 g8 b8
    else
      let rLevel := quantizeToSix r8
      let gLevel := quantizeToSix g8
      let bLevel := quantizeToSix b8
      let cubeColor := 16 + 36 * rLevel + 6 * gLevel + bLevel
      if isNearGrayscale r8 g8 b8 then
        let grayColor := mapToGrayscale r8 g8 b8
        if colorDistance r8 g8 b8 grayColor < colorDistance r8 g8 b8 cubeColor then
          grayColor
        else cubeColor
      else cubeColor

/-- `RenderMode` tells us how to draw the image pixels. -/
inductive RenderMode where
  | BlockMode
  | HalfBlockMode
  | BrailleMode
deriving DecidableEq

/-- `ImageRenderer` is responsible for drawing the image in the terminal.
The source also carries `AspectRatio float64`; every constructor
(`NewImageRenderer`, `RenderImagePixelPerfect`, `RenderImageAdvanced`)
sets it to 0.5, so the embedding fixes that value inside the scaler
(`computeOutputSize`) instead of carrying the field. -/
structure ImageRenderer where
  Mode : RenderMode
  MaxWidth : Int
  MaxHeight : Int
  UseDither : Bool
deriving DecidableEq

/-- `image.Rectangle`: `Min.X`, `Min.Y`, `Max.X`, `Max.Y` flattened. -/
structure Rect where
  minX : Int
  minY : Int
  maxX : Int
  maxY : Int
deriving DecidableEq

/-- `bounds.Dx()`. -/
def Rect.Dx (b : Rect) : Int := b.maxX - b.minX

/-- `bounds.Dy()`. -/
def Rect.Dy (b : Rect) : Int := b.maxY - b.minY

/-- The `image.Image` capability the renderer consumes: bounds plus the
pixel lookup.  `At x y` is `img.At(x, y).RGBA()`: three 16-bit channels
(the unused alpha channel is dropped). -/
structure GoImage where
  bounds : Rect
  At : Int → Int → Nat × Nat × Nat

/-- `Color` is just a simple struct for 8-bit RGB. -/
structure Color where
  R : Nat
  G : Nat
  B : Nat
deriving DecidableEq

/-- X axis of `sampleArea`:
`srcX := float64(x) * float64(bounds.Dx()) / float64(outWidth)` and
`imgPixelX := bounds.Min.X + int(srcX)`, then the two clamps.  The
truncation of the exact rational `x * Dx / outWidth` toward zero is
`Int.tdiv` (callers pass `outWidth > 0`). -/
def samplePixelX (bounds : Rect) (x outWidth : Int) : Int :=
  let imgPixelX := bounds.minX + Int.tdiv (x * bounds.Dx) outWidth
  let imgPixelX := if imgPixelX ≥ bounds.maxX then bounds.maxX - 1 else imgPixelX
  if imgPixelX < bounds.minX then bounds.minX else imgPixelX

/-- Y axis of `sampleArea`, symmetric to `samplePixelX`. -/
def samplePixelY (bounds : Rect) (y outHeight : Int) : Int :=
  let imgPixelY := bounds.minY + Int.tdiv (y * bounds.Dy) outHeight
  let imgPixelY := if imgPixelY ≥ bounds.maxY then bounds.maxY - 1 else imgPixelY
  if imgPixelY < bounds.minY then bounds.minY else imgPixelY

/-- `sampleArea` gets a color from the original image for a given "pixel"
in the scaled output (nearest neighbor).  The receiver is unused in the
source and omitted.  `uint8(r32 >> 8)` is `u8 (r32 / 256)`. -/
def sampleArea (img : GoImage) (bounds : Rect) (x y outWidth outHeight : Int) : Color :=
  let px := samplePixelX bounds x outWidth
  let py := samplePixelY bounds y outHeight
  let pixel := img.At px py
  ⟨u8 (pixel.1 / 256), u8 (pixel.2.1 / 256), u8 (pixel.2.2 / 256)⟩

/-- The 2×2 dither matrix `{{-2, 0}, {1, -1}}` of `applySubtleDither`,
indexed `matrix[i][j]`.  Callers index with values reduced mod 2, so the
catch-all row is unreachable. -/
def ditherMatrix (i j : Nat) : Int :=
  match i, j with
  | 0, 0 => -2
  | 0, 1 => 0
  | 1, 0 => 1
  | 1, 1 => -1
  | _, _ => 0

/-- `clampAddSigned` adds a (potentially negative) `int8` to a `uint8`,
keeping it in the 0-255 range.  The source widens both to `int16`; with
`base ≤ 255` and `add ∈ [-128, 127]` that arithmetic cannot overflow, so
plain `Int` addition is exact. -/
def clampAddSigned (base : Nat) (add : Int) : Nat :=
  let result : Int := (base : Int) + add
  if result > 255 then 255
  else if result < 0 then 0
  else result.toNat

/-- `applySubtleDither` adds a tiny bit of positional noise to colors.
The source coordinates are Go `int`s; every call site passes loop
counters, which are nonnegative, so they are `Nat` here (Go's `%` agrees
with `Nat.mod` on nonnegative values; a negative coordinate would make
the Go code panic on a negative array index). -/
def applySubtleDither (conf : ImageRenderer) (r8 g8 b8 : Nat) (x y : Nat) : Nat × Nat × Nat :=
  if ¬ conf.UseDither then (r8, g8, b8)
  else
    let threshold := ditherMatrix (y % 2) (x % 2) * 2
    (clampAddSigned r8 threshold, clampAddSigned g8 threshold, clampAddSigned b8 threshold)

/-- The clamp the spec describes for the ditherer, stated independently of
the code: add the offset and clamp the result into `[0, 255]`.  Used to
compare `applySubtleDither` against the spec's wording (C9). -/
def ditherClampSpec (base : Nat) (add : Int) : Nat :=
  (min 255 (max 0 ((base : Int) + add))).toNat

/-- The scaling section of `RenderImage` (the spec's Scaler): from source
dimensions and the configuration to `(outputWidth, outputHeight)`.
Float arithmetic embedded exactly (valid for `imgWidth, imgHeight > 0`,
which lets the strict float comparisons cross-multiply):
* HalfBlock: `scale = min(MaxWidth/imgW, (MaxHeight*2)/imgH)`, choosing
  `scaleY` iff `scaleY < scaleX`, i.e. iff
  `maxEff * imgW < MaxWidth * imgH`; `int(imgW * scale)` and
  `int(imgH * scale)` are the truncated quotients written below; then the
  decrement-to-even and the floors, exactly as in the source.
* Block/Braille with aspect ratio 0.5:
  `scaleY = (MaxHeight * 0.5)/imgH`, so `scaleY < scaleX` iff
  `MaxHeight * imgW < 2 * MaxWidth * imgH`;
  `outputHeight = int(imgH * scale / 0.5)` is the truncation of
  `imgH * MaxHeight * 2 / (2 * imgH)` resp. `imgH * MaxWidth * 2 / imgW`. -/
def computeOutputSize (conf : ImageRenderer) (imgWidth imgHeight : Int) : Int × Int :=
  if conf.Mode = RenderMode.HalfBlockMode then
    let maxEffectiveHeight := conf.MaxHeight * 2
    let p :=
      if maxEffectiveHeight * imgWidth < conf.MaxWidth * imgHeight then
        (Int.tdiv (imgWidth * maxEffectiveHeight) imgHeight,
         Int.tdiv (imgHeight * maxEffectiveHeight) imgHeight)
      else
        (Int.tdiv (imgWidth * conf.MaxWidth) imgWidth,
         Int.tdiv (imgHeight * conf.MaxWidth) imgWidth)
    let outputWidth := p.1
    let outputHeight := if p.2 % 2 ≠ 0 then p.2 - 1 else p.2
    let outputHeight := if outputHeight ≤ 0 then 2 else outputHeight
    let outputWidth := if outputWidth ≤ 0 then 1 else outputWidth
    (outputWidth, outputHeight)
  else
    let p :=
      if conf.MaxHeight * imgWidth < 2 * conf.MaxWidth * imgHeight then
        (Int.tdiv (imgWidth * conf.MaxHeight) (2 * imgHeight),
         Int.tdiv (imgHeight * conf.MaxHeight * 2) (2 * imgHeight))
      else
        (Int.tdiv (imgWidth * conf.MaxWidth) imgWidth,
         Int.tdiv (imgHeight * conf.MaxWidth * 2) imgWidth)
    let outputWidth := p.1
    let outputHeight := if p.2 ≤ 0 then 1 else p.2
    let outputWidth := if outputWidth ≤ 0 then 1 else outputWidth
    (outputWidth, outputHeight)

/-- One styled glyph of the output text, the escape-sequence payloads made
explicit (the spec's "glyph character plus optional foreground/background
color indices"):
* `bgCell bg` is `ESC[48;5;{bg}m` + space + `ESC[0m`;
* `halfCell fg bg` is `ESC[38;5;{fg}m ESC[48;5;{bg}m` + `▀` + `ESC[0m`;
* `brailleCell fg pattern` is `ESC[38;5;{fg}m` + the character
  `0x2800 + pattern` + `ESC[0m`. -/
inductive Glyph where
  | bgCell (bg : Nat)
  | halfCell (fg bg : Nat)
  | brailleCell (fg : Nat) (pattern : Nat)
deriving DecidableEq

/-- The palette indices appearing in a glyph's escape sequences. -/
def Glyph.palIndices : Glyph → List Nat
  | .bgCell bg => [bg]
  | .halfCell fg bg => [fg, bg]
  | .brailleCell fg _ => [fg]

/-- The Braille dot pattern of a glyph (0 for non-Braille glyphs). -/
def Glyph.dotPattern : Glyph → Nat
  | .brailleCell _ p => p
  | _ => 0

/-- The code point of the glyph character that is emitted. -/
def Glyph.codePoint : Glyph → Nat
  | .bgCell _ => 0x20
  | .halfCell _ _ => 0x2580
  | .brailleCell _ p => 0x2800 + p

/-- One cell of `renderFullBlocksImproved`: sample, optionally dither,
quantize (channels re-widened by `<< 8`), emit a background-colored
space. -/
def fullBlockCell (conf : ImageRenderer) (img : GoImage) (bounds : Rect)
    (x y : Nat) (width height : Int) : Glyph :=
  let color := sampleArea img bounds x y width height
  let d :=
    if conf.UseDither then applySubtleDither conf color.R color.G color.B x y
    else (color.R, color.G, color.B)
  Glyph.bgCell (RGBToANSI256 (d.1 * 256) (d.2.1 * 256) (d.2.2 * 256))

/-- `renderFullBlocksImproved`: one `bgCell` per output pixel, row-major;
each inner list is one newline-terminated row. -/
def renderFullBlocksImproved (conf : ImageRenderer) (img : GoImage)
    (width height : Int) : List (List Glyph) :=
  let bounds := img.bounds
  (List.range height.toNat).map fun y =>
    (List.range width.toNat).map fun x =>
      fullBlockCell conf img bounds x y width height

/-- One cell of `renderHalfBlocksImproved` at column `x`, top row `yTop`
(always even): sample top and bottom (bottom duplicates top when
`yTop + 1` is out of range), dither each with its own y, quantize both;
equal indices collapse to a plain background cell. -/
def halfBlockCell (conf : ImageRenderer) (img : GoImage) (bounds : Rect)
    (x yTop : Nat) (width height : Int) : Glyph :=
  let topColor := sampleArea img bounds x yTop width height
  let bottomColor :=
    if ((yTop : Int) + 1) < height then sampleArea img bounds x ((yTop : Int) + 1) width height
    else topColor
  let dTop :=
    if conf.UseDither then applySubtleDither conf topColor.R topColor.G topColor.B x yTop
    else (topColor.R, topColor.G, topColor.B)
  let dBottom :=
    if conf.UseDither then
      applySubtleDither conf bottomColor.R bottomColor.G bottomColor.B x (yTop + 1)
    else (bottomColor.R, bottomColor.G, bottomColor.B)
  let topANSI := RGBToANSI256 (dTop.1 * 256) (dTop.2.1 * 256) (dTop.2.2 * 256)
  let bottomANSI := RGBToANSI256 (dBottom.1 * 256) (dBottom.2.1 * 256) (dBottom.2.2 * 256)
  if topANSI = bottomANSI then Glyph.bgCell topANSI
  else Glyph.halfCell topANSI bottomANSI

/-- `renderHalfBlocksImproved`: the loop `for y := 0; y < height; y += 2`
emits one row per iteration, i.e. `⌈height/2⌉` rows (`height.toNat`
handles nonpositive heights, where the loop body never runs). -/
def renderHalfBlocksImproved (conf : ImageRenderer) (img : GoImage)
    (width height : Int) : List (List Glyph) :=
  let bounds := img.bounds
  (List.range ((height.toNat + 1) / 2)).map fun i =>
    (List.range width.toNat).map fun x =>
      halfBlockCell conf img bounds x (2 * i) width height

/-- `brailleDotMask` gives the bit for a dot at (x, y) in a Braille char,
table `{{0x01, 0x02, 0x04, 0x40}, {0x08, 0x10, 0x20, 0x80}}`.  The
source's `x >= 0 && y >= 0` guards are automatic for `Nat`. -/
def brailleDotMask (x y : Nat) : Nat :=
  if x < 2 ∧ y < 4 then
    (([[1, 2, 4, 64], [8, 16, 32, 128]] : List (List Nat)).getD x []).getD y 0
  else 0

/-- `brailleWidth := (width + 1) / 2`, floored to 1. -/
def brailleGridWidth (width : Int) : Int :=
  let w := Int.tdiv (width + 1) 2
  if w ≤ 0 then 1 else w

/-- `brailleHeight := (height + 3) / 4`, floored to 1. -/
def brailleGridHeight (height : Int) : Int :=
  let h := Int.tdiv (height + 3) 4
  if h ≤ 0 then 1 else h

/-- Accumulator of `renderBraille`'s inner 2×4 loop: the bitmask being
built and the running color sums (`pattern`, `avgR/G/B`, `count`). -/
structure BrailleAcc where
  pattern : Nat
  sumR : Nat
  sumG : Nat
  sumB : Nat
  count : Nat
deriving DecidableEq

/-- The 8 sub-positions `(px, py)` of one Braille cell in loop order
(`py` outer 0..3, `px` inner 0..1). -/
def brailleSubPositions : List (Nat × Nat) :=
  [(0, 0), (1, 0), (0, 1), (1, 1), (0, 2), (1, 2), (0, 3), (1, 3)]

/-- One iteration of `renderBraille`'s dot loop: skip out-of-range
sub-positions; otherwise sample, set the dot bit when the luminance
`0.299R + 0.587G + 0.114B` exceeds 128 — exactly,
`299R + 587G + 114B > 128000` — and accumulate the color sums. -/
def brailleStep (img : GoImage) (bounds : Rect) (width height : Int)
    (bx byi : Nat) (acc : BrailleAcc) (p : Nat × Nat) : BrailleAcc :=
  let imgSampleX := bx * 2 + p.1
  let imgSampleY := byi * 4 + p.2
  if ((imgSampleX : Int) < width ∧ (imgSampleY : Int) < height) then
    let color := sampleArea img bounds imgSampleX imgSampleY width height
    let pat :=
      if 299 * color.R + 587 * color.G + 114 * color.B > 128000 then
        acc.pattern ||| brailleDotMask p.1 p.2
      else acc.pattern
    ⟨pat, acc.sumR + color.R, acc.sumG + color.G, acc.sumB + color.B, acc.count + 1⟩
  else acc

/-- The accumulator after the full 2×4 loop of one Braille cell. -/
def brailleCellAcc (img : GoImage) (bounds : Rect) (width height : Int)
    (bx byi : Nat) : BrailleAcc :=
  brailleSubPositions.foldl (brailleStep img bounds width height bx byi) ⟨0, 0, 0, 0, 0⟩

/-- One emitted Braille cell: average the sampled colors when `count > 0`
(`uint8(avgR / count)` is `u8` of the `Nat` quotient), else the
zero-initialized `(0, 0, 0)`; quantize; glyph `0x2800 + pattern`. -/
def brailleCellGlyph (img : GoImage) (bounds : Rect) (width height : Int)
    (bx byi : Nat) : Glyph :=
  let acc := brailleCellAcc img bounds width height bx byi
  let fin :=
    if 0 < acc.count then
      (u8 (acc.sumR / acc.count), u8 (acc.sumG / acc.count), u8 (acc.sumB / acc.count))
    else (0, 0, 0)
  Glyph.brailleCell (RGBToANSI256 (fin.1 * 256) (fin.2.1 * 256) (fin.2.2 * 256)) acc.pattern

/-- `renderBraille`: one cell per position of the coarser Braille grid. -/
def renderBraille (conf : ImageRenderer) (img : GoImage)
    (width height : Int) : List (List Glyph) :=
  let _ := conf
  let bounds := img.bounds
  (List.range (brailleGridHeight height).toNat).map fun byi =>
    (List.range (brailleGridWidth width).toNat).map fun bx =>
      brailleCellGlyph img bounds width height bx byi

/-- `RenderImage`: compute the output grid size, then dispatch on the
render mode.  Rows of the returned list are the newline-terminated lines
of the produced string. -/
def RenderImage (conf : ImageRenderer) (img : GoImage) : List (List Glyph) :=
  let bounds := img.bounds
  let size := computeOutputSize conf bounds.Dx bounds.Dy
  match conf.Mode with
  | RenderMode.HalfBlockMode => renderHalfBlocksImproved conf img size.1 size.2
  | RenderMode.BrailleMode => renderBraille conf img size.1 size.2
  | RenderMode.BlockMode => renderFullBlocksImproved conf img size.1 size.2

/-- A 2×2 source image every pixel of which is pure black:
`RGBA()` returns zero on every channel. -/
def blackImage2x2 : GoImage :=
  ⟨⟨0, 0, 2, 2⟩, fun _ _ => (0, 0, 0)⟩

/-- A w×h source image every pixel of which is pure white:
`RGBA()` returns 65535 on every channel. -/
def whiteImage (w h : Int) : GoImage :=
  ⟨⟨0, 0, w, h⟩, fun _ _ => (65535, 65535, 65535)⟩

theorem mapToGrayscale_range (r g b : Nat) :
    232 ≤ mapToGrayscale r g b ∧ mapToGrayscale r g b ≤ 255 := by
  unfold mapToGrayscale
  set gray := grayLuma r g b with hg
  by_cases h1 : gray < 10
  · simp [h1]
  · by_cases h2 : gray > 245
    · simp [h1, h2]
    · simp only [h1, h2, if_false]
      omega

theorem quantizeToSix_le (val : Nat) : quantizeToSix val ≤ 5 := by
  unfold quantizeToSix
  repeat' split
  all_goals omega

theorem cube_range (a b c : Nat) :
    16 ≤ 16 + 36 * quantizeToSix a + 6 * quantizeToSix b + quantizeToSix c ∧
    16 + 36 * quantizeToSix a + 6 * quantizeToSix b + quantizeToSix c ≤ 231 := by
  have h1 := quantizeToSix_le a
  have h2 := quantizeToSix_le b
  have h3 := quantizeToSix_le c
  omega

/-- C1: For every 16-bit RGB input, `RGBToANSI256` returns a palette index
in `[16, 255]`: the reserved black index 16, a grayscale-ramp index in
`[232, 255]`, or a color-cube index in `[16, 231]`. -/
theorem quantize_range (r g b : Nat)
    (hr : r ≤ 65535) (hg : g ≤ 65535) (hb : b ≤ 65535) :
    RGBToANSI256 r g b = 16 ∨
    (232 ≤ RGBToANSI256 r g b ∧ RGBToANSI256 r g b ≤ 255) ∨
    (16 ≤ RGBToANSI256 r g b ∧ RGBToANSI256 r g b ≤ 231) := by
  simp only [RGBToANSI256]
  split_ifs <;>
    first
      | (left; rfl)
      | (right; left; apply mapToGrayscale_range)
      | (right; right; apply cube_range)

/-- Witness for C1 at the 16-bit encoding of pure red (255, 0, 0). -/
theorem quantize_range_witness :
    RGBToANSI256 65280 0 0 = 16 ∨
    (232 ≤ RGBToANSI256 65280 0 0 ∧ RGBToANSI256 65280 0 0 ≤ 255) ∨
    (16 ≤ RGBToANSI256 65280 0 0 ∧ RGBToANSI256 65280 0 0 ≤ 231) :=
  quantize_range 65280 0 0 (by decide) (by decide) (by decide)

/-- C2 as stated is false at the gray value 0: the input (0, 0, 0) has
R = G = B, yet the quantizer returns 16, not a grayscale-ramp index. -/
theorem gray_input_zero_counterexample :
    RGBToANSI256 (0 * 256) (0 * 256) (0 * 256) = 16 ∧
    ¬ 232 ≤ RGBToANSI256 (0 * 256) (0 * 256) (0 * 256) := by decide

theorem gray_eq_channels_aux (x : Nat) : isGrayscale x x x = true := by
  simp [isGrayscale, maxUint8, minUint8]

/-- C2 (amended): for every gray input with R = G = B and gray value in
`[1, 255]` (pure black excluded, since the quantizer short-circuits
(0, 0, 0) to index 16), the quantizer returns a grayscale-ramp index in
`[232, 255]`.  The 8-bit value `v` enters as the 16-bit channel
`v * 256 = v << 8`, exactly as the rasterizers call the quantizer. -/
theorem gray_input_ramp (v : Nat) (h1 : 1 ≤ v) (h2 : v ≤ 255) :
    232 ≤ RGBToANSI256 (v * 256) (v * 256) (v * 256) ∧
    RGBToANSI256 (v * 256) (v * 256) (v * 256) ≤ 255 := by
  have hc : clamp8 (v * 256 / 256) = v := by
    have h256 : v * 256 / 256 = v := by omega
    simp only [clamp8, h256]
    split <;> omega
  simp only [RGBToANSI256, hc]
  rw [if_neg (by omega)]
  by_cases hv : v < 15 ∧ v < 15 ∧ v < 15
  · simp only [if_pos hv, gray_eq_channels_aux, if_true]
    exact mapToGrayscale_range _ _ _
  · simp only [if_neg hv, gray_eq_channels_aux, if_true]
    exact mapToGrayscale_range _ _ _

/-- Witness for C2 (amended) at mid-gray 128. -/
theorem gray_input_ramp_witness :
    232 ≤ RGBToANSI256 (128 * 256) (128 * 256) (128 * 256) ∧
    RGBToANSI256 (128 * 256) (128 * 256) (128 * 256) ≤ 255 :=
  gray_input_ramp 128 (by decide) (by decide)

/-- C3: The quantizer applied to pure black input (0, 0, 0) returns the
reserved black palette index 16. -/
theorem quantize_black_eq_16 : RGBToANSI256 0 0 0 = 16 := by decide

/-- C4: for every source image of dimensions at least 1×1 and positive
`MaxWidth`/`MaxHeight`, the output grid computed by `RenderImage`'s
scaling section has width ≥ 1 and height ≥ 1, and in HalfBlock mode the
height is even and at least 2. -/
theorem scaler_dims (conf : ImageRenderer) (imgWidth imgHeight : Int)
    (hw : 1 ≤ imgWidth) (hh : 1 ≤ imgHeight)
    (hmw : 1 ≤ conf.MaxWidth) (hmh : 1 ≤ conf.MaxHeight) :
    1 ≤ (computeOutputSize conf imgWidth imgHeight).1 ∧
    1 ≤ (computeOutputSize conf imgWidth imgHeight).2 ∧
    (conf.Mode = RenderMode.HalfBlockMode →
      2 ≤ (computeOutputSize conf imgWidth imgHeight).2 ∧
      (computeOutputSize conf imgWidth imgHeight).2 % 2 = 0) := by
  obtain ⟨mode, mw, mh, ud⟩ := conf
  cases mode <;>
    simp only [computeOutputSize] <;>
    split <;>
    simp_all <;>
    (try split) <;>
    omega

/-- Witness for C4: a 100×50 image in HalfBlock mode on an 80×24 budget. -/
theorem scaler_dims_witness :
    1 ≤ (computeOutputSize ⟨RenderMode.HalfBlockMode, 80, 24, true⟩ 100 50).1 ∧
    1 ≤ (computeOutputSize ⟨RenderMode.HalfBlockMode, 80, 24, true⟩ 100 50).2 ∧
    ((⟨RenderMode.HalfBlockMode, 80, 24, true⟩ : ImageRenderer).Mode = RenderMode.HalfBlockMode →
      2 ≤ (computeOutputSize ⟨RenderMode.HalfBlockMode, 80, 24, true⟩ 100 50).2 ∧
      (computeOutputSize ⟨RenderMode.HalfBlockMode, 80, 24, true⟩ 100 50).2 % 2 = 0) :=
  scaler_dims ⟨RenderMode.HalfBlockMode, 80, 24, true⟩ 100 50
    (by decide) (by decide) (by decide) (by decide)

/-- C5: for every valid output grid coordinate and every source image of
dimensions at least 1×1, the source pixel coordinates computed by
`sampleArea` (extracted as `samplePixelX`/`samplePixelY`, which
`sampleArea` feeds to `img.At`) lie within `[bounds.Min, bounds.Max - 1]`
on both axes, so the pixel lookup is never out of range. -/
theorem sampler_coords_in_bounds (bounds : Rect) (x y outWidth outHeight : Int)
    (hbx : bounds.minX < bounds.maxX) (hby : bounds.minY < bounds.maxY)
    (hx0 : 0 ≤ x) (hxw : x < outWidth) (hy0 : 0 ≤ y) (hyh : y < outHeight) :
    bounds.minX ≤ samplePixelX bounds x outWidth ∧
    samplePixelX bounds x outWidth ≤ bounds.maxX - 1 ∧
    bounds.minY ≤ samplePixelY bounds y outHeight ∧
    samplePixelY bounds y outHeight ≤ bounds.maxY - 1 := by
  simp only [samplePixelX, samplePixelY]
  generalize Int.tdiv (x * bounds.Dx) outWidth = tx
  generalize Int.tdiv (y * bounds.Dy) outHeight = ty
  split_ifs <;> omega

/-- Witness for C5: cell (2, 1) of a 3×3 grid over a 4×3 image. -/
theorem sampler_coords_in_bounds_witness :
    (⟨0, 0, 4, 3⟩ : Rect).minX ≤ samplePixelX ⟨0, 0, 4, 3⟩ 2 3 ∧
    samplePixelX ⟨0, 0, 4, 3⟩ 2 3 ≤ (⟨0, 0, 4, 3⟩ : Rect).maxX - 1 ∧
    (⟨0, 0, 4, 3⟩ : Rect).minY ≤ samplePixelY ⟨0, 0, 4, 3⟩ 1 3 ∧
    samplePixelY ⟨0, 0, 4, 3⟩ 1 3 ≤ (⟨0, 0, 4, 3⟩ : Rect).maxY - 1 :=
  sampler_coords_in_bounds ⟨0, 0, 4, 3⟩ 2 1 3 3
    (by decide) (by decide) (by decide) (by decide) (by decide) (by decide)

theorem scaler_half_height_le (conf : ImageRenderer) (imgWidth imgHeight : Int)
    (hm : conf.Mode = RenderMode.HalfBlockMode)
    (hw : 1 ≤ imgWidth) (hh : 1 ≤ imgHeight)
    (hmw : 1 ≤ conf.MaxWidth) (hmh : 1 ≤ conf.MaxHeight) :
    (computeOutputSize conf imgWidth imgHeight).2 ≤ 2 * conf.MaxHeight := by
  simp only [computeOutputSize, if_pos hm]
  split
  · have hker : Int.tdiv (imgHeight * (conf.MaxHeight * 2)) imgHeight = conf.MaxHeight * 2 := by
      rw [Int.tdiv_eq_ediv (mul_nonneg (by omega) (by omega)) (by omega),
        Int.mul_ediv_cancel_left _ (by omega)]
    simp only [hker]
    omega
  · rename_i hcmp
    have hbound : Int.tdiv (imgHeight * conf.MaxWidth) imgWidth ≤ conf.MaxHeight * 2 := by
      rw [Int.tdiv_eq_ediv (mul_nonneg (by omega) (by omega)) (by omega)]
      have h1 : imgHeight * conf.MaxWidth ≤ conf.MaxHeight * 2 * imgWidth := by
        have h2 := mul_comm imgHeight conf.MaxWidth
        have h3 := mul_comm (conf.MaxHeight * 2) imgWidth
        linarith [not_lt.mp hcmp]
      calc imgHeight * conf.MaxWidth / imgWidth
          ≤ conf.MaxHeight * 2 * imgWidth / imgWidth := Int.ediv_le_ediv (by omega) h1
        _ = conf.MaxHeight * 2 := Int.mul_ediv_cancel _ (by omega)
    omega

/-- C6: in HalfBlock mode, for every source image of dimensions at least
1×1 and positive `MaxWidth`/`MaxHeight`, the number of lines emitted by
the renderer (one newline-terminated row per pair of output pixel rows)
does not exceed `MaxHeight`. -/
theorem halfblock_lines_le (conf : ImageRenderer) (img : GoImage)
    (hm : conf.Mode = RenderMode.HalfBlockMode)
    (hw : 1 ≤ img.bounds.Dx) (hh : 1 ≤ img.bounds.Dy)
    (hmw : 1 ≤ conf.MaxWidth) (hmh : 1 ≤ conf.MaxHeight) :
    (RenderImage conf img).length ≤ conf.MaxHeight.toNat := by
  have hb := scaler_half_height_le conf img.bounds.Dx img.bounds.Dy hm hw hh hmw hmh
  simp only [RenderImage, hm]
  simp only [renderHalfBlocksImproved, List.length_map, List.length_range]
  omega

/-- Witness for C6: a 3×5 (taller than wide) white image in HalfBlock
mode with an 80×24 budget. -/
theorem halfblock_lines_le_witness :
    (RenderImage ⟨RenderMode.HalfBlockMode, 80, 24, false⟩ (whiteImage 3 5)).length ≤
      (24 : Int).toNat :=
  halfblock_lines_le ⟨RenderMode.HalfBlockMode, 80, 24, false⟩ (whiteImage 3 5)
    (by decide) (by decide) (by decide) (by decide) (by decide)

theorem sampleArea_white (W H : Int) (bounds : Rect) (x y ow oh : Int) :
    sampleArea (whiteImage W H) bounds x y ow oh = ⟨255, 255, 255⟩ := by
  simp only [sampleArea, whiteImage]
  decide

theorem brailleStep_white_inb (W H width height : Int) (bounds : Rect) (bx byi : Nat)
    (acc : BrailleAcc) (px py : Nat)
    (hx : ((bx * 2 + px : Nat) : Int) < width) (hy : ((byi * 4 + py : Nat) : Int) < height) :
    brailleStep (whiteImage W H) bounds width height bx byi acc (px, py) =
      ⟨acc.pattern ||| brailleDotMask px py,
       acc.sumR + 255, acc.sumG + 255, acc.sumB + 255, acc.count + 1⟩ := by
  simp only [brailleStep]
  rw [if_pos ⟨hx, hy⟩, sampleArea_white]
  norm_num

theorem brailleCellAcc_white (W H width height : Int) (bounds : Rect) (bx byi : Nat)
    (hbxw : ((bx : Int) * 2 + 1) < width) (hbyh : ((byi : Int) * 4 + 3) < height) :
    brailleCellAcc (whiteImage W H) bounds width height bx byi = ⟨255, 2040, 2040, 2040, 8⟩ := by
  have hx : ∀ px : Nat, px ≤ 1 → ((bx * 2 + px : Nat) : Int) < width := by
    intro px h1
    push_cast
    omega
  have hy : ∀ py : Nat, py ≤ 3 → ((byi * 4 + py : Nat) : Int) < height := by
    intro py h1
    push_cast
    omega
  have e1 : brailleStep (whiteImage W H) bounds width height bx byi ⟨0, 0, 0, 0, 0⟩ (0, 0) =
      ⟨1, 255, 255, 255, 1⟩ := by
    rw [brailleStep_white_inb W H width height bounds bx byi _ 0 0 (hx 0 (by omega)) (hy 0 (by omega))]
    decide
  have e2 : brailleStep (whiteImage W H) bounds width height bx byi ⟨1, 255, 255, 255, 1⟩ (1, 0) =
      ⟨9, 510, 510, 510, 2⟩ := by
    rw [brailleStep_white_inb W H width height bounds bx byi _ 1 0 (hx 1 (by omega)) (hy 0 (by omega))]
    decide
  have e3 : brailleStep (whiteImage W H) bounds width height bx byi ⟨9, 510, 510, 510, 2⟩ (0, 1) =
      ⟨11, 765, 765, 765, 3⟩ := by
    rw [brailleStep_white_inb W H width height bounds bx byi _ 0 1 (hx 0 (by omega)) (hy 1 (by omega))]
    decide
  have e4 : brailleStep (whiteImage W H) bounds width height bx byi ⟨11, 765, 765, 765, 3⟩ (1, 1) =
      ⟨27, 1020, 1020, 1020, 4⟩ := by
    rw [brailleStep_white_inb W H width height bounds bx byi _ 1 1 (hx 1 (by omega)) (hy 1 (by omega))]
    decide
  have e5 : brailleStep (whiteImage W H) bounds width height bx byi ⟨27, 1020, 1020, 1020, 4⟩ (0, 2) =
      ⟨31, 1275, 1275, 1275, 5⟩ := by
    rw [brailleStep_white_inb W H width height bounds bx byi _ 0 2 (hx 0 (by omega)) (hy 2 (by omega))]
    decide
  have e6 : brailleStep (whiteImage W H) bounds width height bx byi ⟨31, 1275, 1275, 1275, 5⟩ (1, 2) =
      ⟨63, 1530, 1530, 1530, 6⟩ := by
    rw [brailleStep_white_inb W H width height bounds bx byi _ 1 2 (hx 1 (by omega)) (hy 2 (by omega))]
    decide
  have e7 : brailleStep (whiteImage W H) bounds width height bx byi ⟨63, 1530, 1530, 1530, 6⟩ (0, 3) =
      ⟨127, 1785, 1785, 1785, 7⟩ := by
    rw [brailleStep_white_inb W H width height bounds bx byi _ 0 3 (hx 0 (by omega)) (hy 3 (by omega))]
    decide
  have e8 : brailleStep (whiteImage W H) bounds width height bx byi ⟨127, 1785, 1785, 1785, 7⟩ (1, 3) =
      ⟨255, 2040, 2040, 2040, 8⟩ := by
    rw [brailleStep_white_inb W H width height bounds bx byi _ 1 3 (hx 1 (by omega)) (hy 3 (by omega))]
    decide
  simp only [brailleCellAcc, brailleSubPositions, List.foldl_cons, List.foldl_nil,
    e1, e2, e3, e4, e5, e6, e7, e8]

theorem brailleCellGlyph_white (W H width height : Int) (bounds : Rect) (bx byi : Nat)
    (hbxw : ((bx : Int) * 2 + 1) < width) (hbyh : ((byi : Int) * 4 + 3) < height) :
    brailleCellGlyph (whiteImage W H) bounds width height bx byi = Glyph.brailleCell 255 255 := by
  simp only [brailleCellGlyph, brailleCellAcc_white W H width height bounds bx byi hbxw hbyh]
  decide

/-- C7 as stated is false: rendering a fully white 1×1 source image in
Braille mode (budget 1×1, so the output grid is 1×1) emits a cell whose
pattern is 0x01 — only the cell's top-left sub-position is inside the
output grid, so the other seven dots stay clear — not 0xFF. -/
theorem braille_white_counterexample :
    RenderImage ⟨RenderMode.BrailleMode, 1, 1, false⟩ (whiteImage 1 1) =
      [[Glyph.brailleCell 255 1]] ∧
    Glyph.dotPattern (Glyph.brailleCell 255 1) ≠ 0xFF ∧
    Glyph.codePoint (Glyph.brailleCell 255 1) ≠ 0x28FF := by decide

/-- C7 (amended): in Braille mode on a fully white source image, every
emitted cell whose full 2×4 dot block lies inside the output pixel grid
has bit pattern 0xFF and glyph code point 0x28FF; in particular, when the
output grid width is a multiple of 2 and its height a multiple of 4 (as
quantified here), this holds for every emitted cell.  Cells at a ragged
right/bottom edge leave their out-of-range dots clear. -/
theorem braille_white_full_cells (conf : ImageRenderer) (W H width height : Int)
    (hw2 : width % 2 = 0) (hh4 : height % 4 = 0) (hw : 1 ≤ width) (hh : 1 ≤ height) :
    ∀ row ∈ renderBraille conf (whiteImage W H) width height,
      ∀ g ∈ row, Glyph.dotPattern g = 0xFF ∧ Glyph.codePoint g = 0x28FF := by
  intro row hrow g hg
  simp only [renderBraille, List.mem_map, List.mem_range] at hrow
  obtain ⟨byi, hbyi, rfl⟩ := hrow
  simp only [List.mem_map, List.mem_range] at hg
  obtain ⟨bx, hbx, rfl⟩ := hg
  have hde : Int.tdiv (width + 1) 2 = (width + 1) / 2 := Int.tdiv_eq_ediv (by omega) (by omega)
  have hde2 : Int.tdiv (height + 3) 4 = (height + 3) / 4 := Int.tdiv_eq_ediv (by omega) (by omega)
  have hgw : (if (width + 1) / 2 ≤ 0 then (1 : Int) else (width + 1) / 2) = (width + 1) / 2 :=
    if_neg (by omega)
  have hgh : (if (height + 3) / 4 ≤ 0 then (1 : Int) else (height + 3) / 4) = (height + 3) / 4 :=
    if_neg (by omega)
  simp only [brailleGridWidth, hde, hgw] at hbx
  simp only [brailleGridHeight, hde2, hgh] at hbyi
  rw [brailleCellGlyph_white W H width height _ bx byi (by omega) (by omega)]
  decide

/-- Witness for C7 (amended): a white image rendered to a 2×4 output grid
yields the single cell with all dots set. -/
theorem braille_white_full_cells_witness :
    Glyph.dotPattern
        (((renderBraille ⟨RenderMode.BrailleMode, 5, 5, false⟩ (whiteImage 2 4) 2 4).getD 0
            []).getD 0 (Glyph.bgCell 0)) = 0xFF ∧
    Glyph.codePoint
        (((renderBraille ⟨RenderMode.BrailleMode, 5, 5, false⟩ (whiteImage 2 4) 2 4).getD 0
            []).getD 0 (Glyph.bgCell 0)) = 0x28FF :=
  braille_white_full_cells ⟨RenderMode.BrailleMode, 5, 5, false⟩ 2 4 2 4
    (by decide) (by decide) (by decide) (by decide)
    ((renderBraille ⟨RenderMode.BrailleMode, 5, 5, false⟩ (whiteImage 2 4) 2 4).getD 0 [])
    (by decide)
    (((renderBraille ⟨RenderMode.BrailleMode, 5, 5, false⟩ (whiteImage 2 4) 2 4).getD 0
        []).getD 0 (Glyph.bgCell 0))
    (by decide)

theorem sampleArea_black (bounds : Rect) (x y ow oh : Int) :
    sampleArea blackImage2x2 bounds x y ow oh = ⟨0, 0, 0⟩ := by
  simp only [sampleArea, blackImage2x2]
  decide

theorem fullBlockCell_black (conf : ImageRenderer) (bounds : Rect) (x y : Nat)
    (w h : Int) (hud : conf.UseDither = false) :
    fullBlockCell conf blackImage2x2 bounds x y w h = Glyph.bgCell 16 := by
  simp [fullBlockCell, sampleArea_black, hud]
  decide

theorem halfBlockCell_black (conf : ImageRenderer) (bounds : Rect) (x yTop : Nat)
    (w h : Int) (hud : conf.UseDither = false) :
    halfBlockCell conf blackImage2x2 bounds x yTop w h = Glyph.bgCell 16 := by
  simp [halfBlockCell, sampleArea_black, hud, ite_self]
  decide

theorem brailleFold_black (bounds : Rect) (w h : Int) (bx byi : Nat)
    (ps : List (Nat × Nat)) (acc : BrailleAcc)
    (hp : acc.pattern = 0) (hr : acc.sumR = 0) (hg : acc.sumG = 0) (hb : acc.sumB = 0) :
    (ps.foldl (brailleStep blackImage2x2 bounds w h bx byi) acc).pattern = 0 ∧
    (ps.foldl (brailleStep blackImage2x2 bounds w h bx byi) acc).sumR = 0 ∧
    (ps.foldl (brailleStep blackImage2x2 bounds w h bx byi) acc).sumG = 0 ∧
    (ps.foldl (brailleStep blackImage2x2 bounds w h bx byi) acc).sumB = 0 := by
  induction ps generalizing acc with
  | nil => exact ⟨hp, hr, hg, hb⟩
  | cons p rest ih =>
    simp only [List.foldl_cons]
    apply ih
    all_goals
      simp only [brailleStep, sampleArea_black]
      split
      · simp [hp, hr, hg, hb]
      · simp [hp, hr, hg, hb]

theorem brailleCellGlyph_black (bounds : Rect) (w h : Int) (bx byi : Nat) :
    brailleCellGlyph blackImage2x2 bounds w h bx byi = Glyph.brailleCell 16 0 := by
  obtain ⟨hp, hr, hg, hb⟩ :=
    brailleFold_black bounds w h bx byi brailleSubPositions ⟨0, 0, 0, 0, 0⟩ rfl rfl rfl rfl
  simp only [brailleCellGlyph, brailleCellAcc] at *
  rw [hp, hr, hg, hb]
  split
  · simp only [Nat.zero_div]
    decide
  · decide

/-- C8: a 2×2 pure-black source image rendered in any of the three modes
with dithering disabled uses only palette index 16: every index appearing
in the emitted escape sequences (background in Block/HalfBlock mode,
foreground in Braille mode) is 16. -/
theorem black_2x2_all_indices_16 (conf : ImageRenderer) (hud : conf.UseDither = false) :
    ∀ row ∈ RenderImage conf blackImage2x2, ∀ g ∈ row, ∀ n ∈ g.palIndices, n = 16 := by
  intro row hrow g hg n hn
  simp only [RenderImage] at hrow
  rcases hmode : conf.Mode with m1 | m2 | m3 <;> rw [hmode] at hrow
  case BlockMode =>
    simp only [renderFullBlocksImproved, List.mem_map, List.mem_range] at hrow
    obtain ⟨y, hy, rfl⟩ := hrow
    simp only [List.mem_map, List.mem_range] at hg
    obtain ⟨x, hx, rfl⟩ := hg
    rw [fullBlockCell_black conf _ x y _ _ hud] at hn
    simp only [Glyph.palIndices, List.mem_singleton] at hn
    exact hn
  case HalfBlockMode =>
    simp only [renderHalfBlocksImproved, List.mem_map, List.mem_range] at hrow
    obtain ⟨i, hi, rfl⟩ := hrow
    simp only [List.mem_map, List.mem_range] at hg
    obtain ⟨x, hx, rfl⟩ := hg
    rw [halfBlockCell_black conf _ x (2 * i) _ _ hud] at hn
    simp only [Glyph.palIndices, List.mem_singleton] at hn
    exact hn
  case BrailleMode =>
    simp only [renderBraille, List.mem_map, List.mem_range] at hrow
    obtain ⟨byi, hbyi, rfl⟩ := hrow
    simp only [List.mem_map, List.mem_range] at hg
    obtain ⟨bx, hbx, rfl⟩ := hg
    rw [brailleCellGlyph_black _ _ _ bx byi] at hn
    simp only [Glyph.palIndices, List.mem_singleton] at hn
    exact hn

/-- Witness for C8: the first emitted cell of the Block-mode rendering of
the 2×2 black image carries index 16. -/
theorem black_2x2_all_indices_16_witness :
    (Glyph.palIndices
        (((RenderImage ⟨RenderMode.BlockMode, 2, 2, false⟩ blackImage2x2).getD 0 []).getD 0
          (Glyph.bgCell 0))).getD 0 0 = 16 :=
  black_2x2_all_indices_16 ⟨RenderMode.BlockMode, 2, 2, false⟩ rfl
    ((RenderImage ⟨RenderMode.BlockMode, 2, 2, false⟩ blackImage2x2).getD 0 [])
    (by decide)
    (((RenderImage ⟨RenderMode.BlockMode, 2, 2, false⟩ blackImage2x2).getD 0 []).getD 0
      (Glyph.bgCell 0))
    (by decide)
    ((Glyph.palIndices
        (((RenderImage ⟨RenderMode.BlockMode, 2, 2, false⟩ blackImage2x2).getD 0 []).getD 0
          (Glyph.bgCell 0))).getD 0 0)
    (by decide)

/-- C9: the ditherer is a pure function of `(color, x, y)` and the
configuration (it reads no other state, so identical calls give identical
results by construction); with `UseDither` false it is exactly the
identity on the color, and with `UseDither` true it adds
`matrix[y mod 2][x mod 2] * 2` (matrix `[[-2, 0], [1, -1]]`) to each
channel independently, clamped into `[0, 255]` (`ditherClampSpec` states
the spec's clamp; the equation shows `clampAddSigned` implements it). -/
theorem dither_off_identity_and_clamp (conf : ImageRenderer) (r8 g8 b8 x y : Nat) :
    (conf.UseDither = false → applySubtleDither conf r8 g8 b8 x y = (r8, g8, b8)) ∧
    (conf.UseDither = true →
      applySubtleDither conf r8 g8 b8 x y =
        (ditherClampSpec r8 (ditherMatrix (y % 2) (x % 2) * 2),
         ditherClampSpec g8 (ditherMatrix (y % 2) (x % 2) * 2),
         ditherClampSpec b8 (ditherMatrix (y % 2) (x % 2) * 2))) := by
  constructor
  · intro h
    simp [applySubtleDither, h]
  · intro h
    simp only [applySubtleDither, h]
    norm_num
    refine ⟨?_, ?_, ?_⟩ <;>
      (simp only [clampAddSigned, ditherClampSpec]; split_ifs <;> omega)

/-- Witness for C9 with dithering active at `(x, y) = (2, 1)`:
`matrix[1][0] * 2 = 2` is added to each channel and clamped. -/
theorem dither_off_identity_and_clamp_witness :
    applySubtleDither ⟨RenderMode.BlockMode, 10, 10, true⟩ 100 200 0 2 1 =
      (ditherClampSpec 100 (ditherMatrix (1 % 2) (2 % 2) * 2),
       ditherClampSpec 200 (ditherMatrix (1 % 2) (2 % 2) * 2),
       ditherClampSpec 0 (ditherMatrix (1 % 2) (2 % 2) * 2)) :=
  (dither_off_identity_and_clamp ⟨RenderMode.BlockMode, 10, 10, true⟩ 100 200 0 2 1).2 rfl

theorem brailleStep_count_le (img : GoImage) (bounds : Rect) (w h : Int)
    (bx byi : Nat) (acc : BrailleAcc) (p : Nat × Nat) :
    acc.count ≤ (brailleStep img bounds w h bx byi acc p).count := by
  simp only [brailleStep]
  split <;> simp

theorem brailleFold_count_le (img : GoImage) (bounds : Rect) (w h : Int)
    (bx byi : Nat) (ps : List (Nat × Nat)) (acc : BrailleAcc) :
    acc.count ≤ (ps.foldl (brailleStep img bounds w h bx byi) acc).count := by
  induction ps generalizing acc with
  | nil => exact le_refl _
  | cons p rest ih =>
    simp only [List.foldl_cons]
    exact le_trans (brailleStep_count_le img bounds w h bx byi acc p) (ih _)

/-- C10: in Braille mode, every cell of the cell grid
(`bx < brailleGridWidth width`, `byi < brailleGridHeight height`, with
`width, height ≥ 1`) has its top-left sub-position inside the output
grid, so the sample count is positive and the division-by-zero guard
branch (which would leave the foreground color `(0, 0, 0)`) is never
taken. -/
theorem braille_cell_count_pos (img : GoImage) (bounds : Rect) (width height : Int)
    (hw : 1 ≤ width) (hh : 1 ≤ height) (bx byi : Nat)
    (hbx : bx < (brailleGridWidth width).toNat)
    (hbyi : byi < (brailleGridHeight height).toNat) :
    0 < (brailleCellAcc img bounds width height bx byi).count := by
  have hde : Int.tdiv (width + 1) 2 = (width + 1) / 2 := Int.tdiv_eq_ediv (by omega) (by omega)
  have hde2 : Int.tdiv (height + 3) 4 = (height + 3) / 4 := Int.tdiv_eq_ediv (by omega) (by omega)
  have hgw : (if (width + 1) / 2 ≤ 0 then (1 : Int) else (width + 1) / 2) = (width + 1) / 2 :=
    if_neg (by omega)
  have hgh : (if (height + 3) / 4 ≤ 0 then (1 : Int) else (height + 3) / 4) = (height + 3) / 4 :=
    if_neg (by omega)
  simp only [brailleGridWidth, hde, hgw] at hbx
  simp only [brailleGridHeight, hde2, hgh] at hbyi
  have hx0 : ((bx * 2 + 0 : Nat) : Int) < width := by push_cast; omega
  have hy0 : ((byi * 4 + 0 : Nat) : Int) < height := by push_cast; omega
  have hfirst : (brailleStep img bounds width height bx byi ⟨0, 0, 0, 0, 0⟩ (0, 0)).count = 1 := by
    simp only [brailleStep]
    rw [if_pos ⟨hx0, hy0⟩]
  have hmono := brailleFold_count_le img bounds width height bx byi
    [(1, 0), (0, 1), (1, 1), (0, 2), (1, 2), (0, 3), (1, 3)]
    (brailleStep img bounds width height bx byi ⟨0, 0, 0, 0, 0⟩ (0, 0))
  simp only [brailleCellAcc, brailleSubPositions]
  rw [List.foldl_cons]
  omega

/-- Witness for C10: cell (1, 1) of the Braille grid over a 3×5 output
grid. -/
theorem braille_cell_count_pos_witness :
    0 < (brailleCellAcc (whiteImage 3 5) (whiteImage 3 5).bounds 3 5 1 1).count :=
  braille_cell_count_pos (whiteImage 3 5) (whiteImage 3 5).bounds 3 5
    (by decide) (by decide) 1 1 (by decide) (by decide)
